import Mathlib

/-!
Shallow embedding of the string-column layer of a ClickHouse client
(`clickhouse/columns/string.cpp`): the fixed-width string column
(`ColumnFixedString`), the variable-width string column (`ColumnString`)
with its arena blocks, and the length-prefixed wire codec the two use.

Bytes are modelled as natural numbers, byte buffers as `List Nat`, and
streams as `List Nat` consumed from the front.  Fallible operations
return `Option` or `Except`; the C++ `throw` of a `ValidationError`
becomes the `Except.error` constructor carrying the same message.
-/

namespace Clickhouse

/-! ### Wire codec

Modelled from the spec: the `WireFormat` primitives live in
`base/wire_format.h`, which is not part of the sources; the spec fixes
their contract: `read_bytes(dst, n) -> bool`, `write_bytes(src, n)`,
`read_u64() -> Optional<u64>`, `write_string(span)`, where the length
prefix of a variable-width element is an 8-byte unsigned integer in
host order (not a variable-length integer), and every primitive fails
on a short read.  We fix little-endian byte order for the 64-bit
length; the round-trip results are independent of this choice. -/

/-- Modelled from the spec: serialize `n` into `k` bytes, least
significant byte first. -/
def encodeLE : Nat → Nat → List Nat
  | 0, _ => []
  | k + 1, n => n % 256 :: encodeLE k (n / 256)

/-- Modelled from the spec: read back a little-endian byte list as a
natural number. -/
def decodeLE : List Nat → Nat
  | [] => 0
  | b :: bs => b + 256 * decodeLE bs

/-- Modelled from the spec: `WireFormat::ReadBytes` — take `n` bytes off
the front of the stream, failing if fewer are available. -/
def readBytes (s : List Nat) (n : Nat) : Option (List Nat × List Nat) :=
  if n ≤ s.length then some (s.take n, s.drop n) else none

/-- Modelled from the spec: `WireFormat::ReadUInt64` — consume an 8-byte
host-order unsigned integer, failing on a short stream. -/
def readU64 (s : List Nat) : Option (Nat × List Nat) :=
  if 8 ≤ s.length then some (decodeLE (s.take 8), s.drop 8) else none

/-- Modelled from the spec: `WireFormat::WriteString` — an 8-byte length
prefix followed by the payload bytes. -/
def writeString (it : List Nat) : List Nat :=
  encodeLE 8 it.length ++ it

/-- Source `DEFAULT_BLOCK_SIZE` from the anonymous namespace of `string.cpp`. -/
def DEFAULT_BLOCK_SIZE : Nat := 4096

/-- Source `ComputeTotalSize(strings)` over the full range: the summed byte
length of all elements. -/
def computeTotalSizeAll (strings : List (List Nat)) : Nat :=
  strings.foldl (fun acc s => acc + s.length) 0

/-- Source `ComputeTotalSize(strings, begin, len)`: the summed byte length of
the elements in `[begin, begin+len)`, clamped to the container. -/
def computeTotalSize (strings : List (List Nat)) (begin_ len : Nat) : Nat :=
  computeTotalSizeAll ((strings.drop begin_).take len)

/-! ### Fixed-width column (`ColumnFixedString`)

`string_size_` is the fixed element width, `data_` the single
contiguous byte buffer.  The capacity-reservation arithmetic of
`ColumnFixedString::Append` (the `DEFAULT_BLOCK_SIZE` round-up) only
changes the buffer's reserved capacity, never its contents, so the
embedding tracks the contents alone. -/

structure ColumnFixedString where
  string_size : Nat
  data : List Nat
  deriving Repr, DecidableEq

namespace ColumnFixedString

/-- Source `ColumnFixedString::Append(std::string_view)`: throws a
`ValidationError` when the payload exceeds `string_size_`, before any
mutation; otherwise appends the bytes and zero-pads to the element
width.  The error case therefore returns no new state: the caller's
column is exactly what it was before the call. -/
def Append (c : ColumnFixedString) (str : List Nat) : Except String ColumnFixedString :=
  if c.string_size < str.length then
    .error ("Expected string of length not greater than " ++ toString c.string_size
      ++ " bytes, received " ++ toString str.length ++ " bytes.")
  else
    .ok { c with data := c.data ++ str ++ List.replicate (c.string_size - str.length) 0 }

/-- Source `ColumnFixedString::Clear`. -/
def Clear (c : ColumnFixedString) : ColumnFixedString :=
  { c with data := [] }

/-- Source `ColumnFixedString::At`: `data_.at(n * string_size_)` bounds-checks
the start offset and the view spans `string_size_` bytes. -/
def At (c : ColumnFixedString) (n : Nat) : Option (List Nat) :=
  if n * c.string_size < c.data.length then
    some ((c.data.drop (n * c.string_size)).take c.string_size)
  else
    none

/-- Source `ColumnFixedString::Size`. -/
def Size (c : ColumnFixedString) : Nat :=
  c.data.length / c.string_size

/-- Source `ColumnFixedString::LoadBody`: resize the buffer to
`string_size_ * rows` and fill it with one raw read, failing if the
stream is short. -/
def LoadBody (c : ColumnFixedString) (input : List Nat) (rows : Nat) :
    Option ColumnFixedString :=
  match readBytes input (c.string_size * rows) with
  | none => none
  | some (bytes, _) => some { c with data := bytes }

/-- Source `ColumnFixedString::SaveBody`: the whole buffer in one write. -/
def SaveBody (c : ColumnFixedString) : List Nat :=
  c.data

/-- Source `ColumnFixedString::Slice`: a fresh column over
`data_.substr(begin * string_size_, min(data_.size() - b, len * string_size_))`
when `begin < Size()`, an empty one otherwise. -/
def Slice (c : ColumnFixedString) (begin_ len : Nat) : ColumnFixedString :=
  if begin_ < c.Size then
    { string_size := c.string_size
      data := (c.data.drop (begin_ * c.string_size)).take
        (min (c.data.length - begin_ * c.string_size) (len * c.string_size)) }
  else
    { string_size := c.string_size, data := [] }

/-- Source `ColumnFixedString::CloneEmpty`. -/
def CloneEmpty (c : ColumnFixedString) : ColumnFixedString :=
  { string_size := c.string_size, data := [] }

/-- Source `ColumnFixedString::Swap`: exchanges `string_size_` and `data_`. -/
def Swap (a b : ColumnFixedString) : ColumnFixedString × ColumnFixedString :=
  ({ string_size := b.string_size, data := b.data },
   { string_size := a.string_size, data := a.data })

end ColumnFixedString

/-! ### Arena block (`ColumnString::Block`)

`capacity` is fixed at creation; `data` models the bytes written so
far (the C++ `size` member equals `data.length`).  The block only ever
grows at its tail, so a view handed out over an earlier append keeps
its content: the embedding records each view by its content. -/

structure Block where
  capacity : Nat
  data : List Nat
  deriving Repr, DecidableEq

namespace Block

/-- Source `Block(starting_capacity)`: a fresh block with nothing written. -/
def empty (starting_capacity : Nat) : Block :=
  { capacity := starting_capacity, data := [] }

/-- Source `Block::GetAvailable`. -/
def GetAvailable (b : Block) : Nat :=
  b.capacity - b.data.length

/-- Source `Block::AppendUnsafe`: copy `str` into the unused tail, advance
`size`, and hand back a view over exactly the copied region (whose
content is `str`).  `Block::ConsumeTailAsStringViewUnsafe` after a raw
wire read of the same bytes has the identical effect on the model. -/
def AppendUnsafe (b : Block) (str : List Nat) : Block :=
  { b with data := b.data ++ str }

end Block

/-- Write `str` into the last block of the list, as the C++ code does
through its `blocks_.back()` reference. -/
def appendToLast : List Block → List Nat → List Block
  | [], _ => []
  | [b], str => [b.AppendUnsafe str]
  | b :: b' :: bs, str => b :: appendToLast (b' :: bs) str

/-! ### Variable-width column (`ColumnString`) -/

/-- Modelled from the spec: `ColumnString::DEFAULT_ESTIMATION` is
declared in `string.h`, which is not part of the sources; the spec
says the estimate computed from a known list of strings is "floored to
a minimum of 1 if that computes to 0". -/
def DEFAULT_ESTIMATION : Nat := 1

/-- Source `ComputeValueSizeEstimation(total_size, number_of_items)`:
`ceil(total / items)` (computed via `std::ceil` over `double` in the
source; exact ceiling division here), with the item count bumped to 1
to avoid dividing by zero, and a zero estimate replaced by
`DEFAULT_ESTIMATION`. -/
def ComputeValueSizeEstimation (total_size number_of_items : Nat) : Nat :=
  let n := if number_of_items = 0 then 1 else number_of_items
  let estimation := (total_size + n - 1) / n
  if estimation = 0 then DEFAULT_ESTIMATION else estimation

/-- Source `EstimateNextBlockSize(value_size_estimation)`:
`max(DEFAULT_BLOCK_SIZE, estimation * 32)`. -/
def EstimateNextBlockSize (value_size_estimation : Nat) : Nat :=
  max DEFAULT_BLOCK_SIZE (value_size_estimation * 32)

/-- Source `ColumnString`: `items` holds one view per logical element (each
view recorded by its byte content), `blocks` the arena blocks, and
`append_data` the deque of exclusively-owned buffers backing
ownership-transfer appends. -/
structure ColumnString where
  items : List (List Nat)
  blocks : List Block
  append_data : List (List Nat)
  value_size_estimation : Nat
  next_block_size : Nat
  deriving Repr, DecidableEq

namespace ColumnString

/-- Source `ColumnString(EstimatedValueSize)`: the empty column; rejects
negative estimates in C++, which `Nat` makes unrepresentable. -/
def new (value_size_estimation : Nat) : ColumnString :=
  { items := []
    blocks := []
    append_data := []
    value_size_estimation := value_size_estimation
    next_block_size := DEFAULT_BLOCK_SIZE }

/-- The block-allocation guard of `ColumnString::Append`:
`blocks_.empty() || blocks_.back().GetAvailable() < str.length()`. -/
def needNewBlock (c : ColumnString) (str : List Nat) : Bool :=
  match c.blocks.getLast? with
  | none => true
  | some b => b.GetAvailable < str.length

/-- Source `ColumnString::Append(std::string_view)` — the copy append: when
the guard fires, push a block of capacity
`max(next_block_size_, str.size())` and recompute `next_block_size_`;
then copy the bytes into the last block and record the view. -/
def Append (c : ColumnString) (str : List Nat) : ColumnString :=
  let c1 :=
    if needNewBlock c str then
      { c with
          blocks := c.blocks ++ [Block.empty (max c.next_block_size str.length)]
          next_block_size := EstimateNextBlockSize c.value_size_estimation }
    else c
  { c1 with
      blocks := appendToLast c1.blocks str
      items := c1.items ++ [str] }

/-- Source `ColumnString::Append(std::string&&)` — the ownership-transfer
append: move the buffer into `append_data_` and record a view over it. -/
def AppendMove (c : ColumnString) (steal_value : List Nat) : ColumnString :=
  { c with
      append_data := c.append_data ++ [steal_value]
      items := c.items ++ [steal_value] }

/-- Source `ColumnString::AppendNoManagedLifetime` — the unsafe-borrow append:
record a view over caller-owned memory, copying nothing. -/
def AppendNoManagedLifetime (c : ColumnString) (str : List Nat) : ColumnString :=
  { c with items := c.items ++ [str] }

/-- Source `ColumnString::AppendUnsafe`: write into the current last block
without any room check and record the view. -/
def AppendUnsafe (c : ColumnString) (str : List Nat) : ColumnString :=
  { c with
      blocks := appendToLast c.blocks str
      items := c.items ++ [str] }

/-- Source `ColumnString(const std::vector<std::string>&)`: one block sized to
the strings' total byte length, every string copied in via
`AppendUnsafe`, and the estimate recomputed from the observed total. -/
def fromVectorCopy (data : List (List Nat)) : ColumnString :=
  let total_size := computeTotalSizeAll data
  let c0 := { new DEFAULT_ESTIMATION with blocks := [Block.empty total_size] }
  let c := data.foldl AppendUnsafe c0
  { c with value_size_estimation := ComputeValueSizeEstimation total_size data.length }

/-- Source `ColumnString(std::vector<std::string>&&)`: every string moved into
`append_data_` with a view recorded over it, and the estimate
recomputed from the views' total length. -/
def fromVectorMove (data : List (List Nat)) : ColumnString :=
  let c := data.foldl AppendMove (new DEFAULT_ESTIMATION)
  { c with
      value_size_estimation :=
        ComputeValueSizeEstimation (computeTotalSizeAll c.items) c.items.length }

/-- Source `ColumnString::Clear`: drops all three containers. -/
def Clear (c : ColumnString) : ColumnString :=
  { c with items := [], blocks := [], append_data := [] }

/-- Source `ColumnString::At`: `items_.at(n)`, bounds-checked. -/
def At (c : ColumnString) (n : Nat) : Option (List Nat) :=
  c.items.get? n

/-- Source `ColumnString::Size`. -/
def Size (c : ColumnString) : Nat :=
  c.items.length

/-- The read loop of `ColumnString::LoadBody`: per row, an 8-byte
length, then a new block of capacity `max(DEFAULT_BLOCK_SIZE, len)`
when the current one cannot hold `len` bytes, then the payload read
straight into the block's tail and recorded as a view. -/
def loadLoop : List Nat → Nat → List (List Nat) → List Block →
    Option (List (List Nat) × List Block)
  | _, 0, new_items, new_blocks => some (new_items, new_blocks)
  | input, rows + 1, new_items, new_blocks =>
    match readU64 input with
    | none => none
    | some (len, rest) =>
      let new_blocks :=
        if (new_blocks.getLast?.getD (Block.empty 0)).GetAvailable < len then
          new_blocks ++ [Block.empty (max DEFAULT_BLOCK_SIZE len)]
        else new_blocks
      match readBytes rest len with
      | none => none
      | some (bytes, rest') =>
        loadLoop rest' rows (new_items ++ [bytes]) (appendToLast new_blocks bytes)

/-- Source `ColumnString::LoadBody`: `rows == 0` clears `items_` and `blocks_`
and succeeds; otherwise the loop builds fresh `new_items`/`new_blocks`
locals which are swapped in only when every read succeeded, so a
failed load hands back the column exactly as it was. -/
def LoadBody (c : ColumnString) (input : List Nat) (rows : Nat) : Bool × ColumnString :=
  if rows = 0 then
    (true, { c with items := [], blocks := [] })
  else
    match loadLoop input rows [] [Block.empty DEFAULT_BLOCK_SIZE] with
    | none => (false, c)
    | some (new_items, new_blocks) =>
      (true, { c with items := new_items, blocks := new_blocks })

/-- Source `ColumnString::SaveBody`: each item in index order through
`WireFormat::WriteString`. -/
def SaveBody (c : ColumnString) : List Nat :=
  c.items.foldr (fun item acc => writeString item ++ acc) []

/-- Source `ColumnString::CloneEmpty`: a fresh empty column carrying over the
value-size estimate. -/
def CloneEmpty (c : ColumnString) : ColumnString :=
  new c.value_size_estimation

/-- Source `ColumnString::Slice`: out-of-range `begin` yields `CloneEmpty()`;
otherwise a fresh column gets one block sized to the sliced range's
total byte length and each element of `[begin, begin+len)` (clamped)
is copy-appended. -/
def Slice (c : ColumnString) (begin_ len : Nat) : ColumnString :=
  if c.items.length ≤ begin_ then
    c.CloneEmpty
  else
    let len' := min len (c.items.length - begin_)
    let r0 :=
      { new c.value_size_estimation with
          blocks := [Block.empty (max DEFAULT_BLOCK_SIZE (computeTotalSize c.items begin_ len'))] }
    ((c.items.drop begin_).take len').foldl Append r0

/-- Source `ColumnString::Swap`: exchanges `items_`, `blocks_` and
`append_data_` (the estimate and `next_block_size_` stay put). -/
def Swap (a b : ColumnString) : ColumnString × ColumnString :=
  ({ a with items := b.items, blocks := b.blocks, append_data := b.append_data },
   { b with items := a.items, blocks := a.blocks, append_data := a.append_data })

end ColumnString

/-- The three append ownership modes of the variable-width column, as
one tagged operation. -/
inductive AppendOp where
  | copy (s : List Nat)
  | transfer (s : List Nat)
  | borrow (s : List Nat)
  deriving Repr, DecidableEq

/-- Dispatch an append operation to the corresponding entry point. -/
def applyAppend (c : ColumnString) : AppendOp → ColumnString
  | .copy s => c.Append s
  | .transfer s => c.AppendMove s
  | .borrow s => c.AppendNoManagedLifetime s

/-- The string an append operation logically adds. -/
def appendedString : AppendOp → List Nat
  | .copy s => s
  | .transfer s => s
  | .borrow s => s

/-! ### Helper lemmas -/

theorem ColumnString.Append_items (c : ColumnString) (str : List Nat) :
    (c.Append str).items = c.items ++ [str] := by
  unfold ColumnString.Append
  split <;> rfl

theorem applyAppend_items (c : ColumnString) (op : AppendOp) :
    (applyAppend c op).items = c.items ++ [appendedString op] := by
  cases op with
  | copy s => exact c.Append_items s
  | transfer s => rfl
  | borrow s => rfl

theorem foldl_applyAppend_items (ops : List AppendOp) :
    ∀ c : ColumnString,
      (ops.foldl applyAppend c).items = c.items ++ ops.map appendedString := by
  induction ops with
  | nil => intro c; simp
  | cons op ops ih =>
    intro c
    simp [List.foldl_cons, ih, applyAppend_items]

theorem foldl_Append_items (l : List (List Nat)) :
    ∀ c : ColumnString,
      (l.foldl ColumnString.Append c).items = c.items ++ l := by
  induction l with
  | nil => intro c; simp
  | cons s l ih =>
    intro c
    simp [List.foldl_cons, ih, ColumnString.Append_items]

theorem foldl_AppendMove_items (data : List (List Nat)) :
    ∀ c : ColumnString,
      (data.foldl ColumnString.AppendMove c).items = c.items ++ data := by
  induction data with
  | nil => intro c; simp
  | cons s l ih =>
    intro c
    simp [List.foldl_cons, ih, ColumnString.AppendMove]

theorem ComputeValueSizeEstimation_of_ne_zero (t n : Nat) (h : n ≠ 0) :
    ComputeValueSizeEstimation t n = max (t ⌈/⌉ n) 1 := by
  simp only [ComputeValueSizeEstimation, if_neg h, Nat.ceilDiv_eq_add_pred_div,
    DEFAULT_ESTIMATION]
  rcases Nat.eq_zero_or_pos ((t + n - 1) / n) with h0 | h0
  · rw [if_pos h0, h0, Nat.max_eq_right (Nat.zero_le 1)]
  · rw [if_neg (Nat.pos_iff_ne_zero.mp h0), Nat.max_eq_left h0]

theorem appendToLast_concat (xs : List Block) (b : Block) (s : List Nat) :
    appendToLast (xs ++ [b]) s = xs ++ [b.AppendUnsafe s] := by
  induction xs with
  | nil => rfl
  | cons x xs ih =>
    cases hx : xs ++ [b] with
    | nil => simp at hx
    | cons y l =>
      simp only [List.cons_append, hx, appendToLast]
      rw [← hx, ih]

theorem appendToLast_length (bs : List Block) (s : List Nat) :
    (appendToLast bs s).length = bs.length := by
  induction bs with
  | nil => rfl
  | cons b bs ih =>
    cases bs with
    | nil => rfl
    | cons b' bs' => simpa [appendToLast] using ih

theorem encodeLE_length (k : Nat) : ∀ n, (encodeLE k n).length = k := by
  induction k with
  | zero => intro n; rfl
  | succ k ih =>
    intro n
    show (encodeLE k (n / 256)).length + 1 = k + 1
    rw [ih]

theorem decodeLE_encodeLE (k : Nat) : ∀ n, decodeLE (encodeLE k n) = n % 256 ^ k := by
  induction k with
  | zero => intro n; simp [encodeLE, decodeLE, Nat.mod_one]
  | succ k ih =>
    intro n
    show n % 256 + 256 * decodeLE (encodeLE k (n / 256)) = n % 256 ^ (k + 1)
    rw [ih, pow_succ, Nat.mul_comm (256 ^ k) 256, Nat.mod_mul]

theorem readU64_encode (n : Nat) (rest : List Nat) (h : n < 2 ^ 64) :
    readU64 (encodeLE 8 n ++ rest) = some (n, rest) := by
  have hl : (encodeLE 8 n).length = 8 := encodeLE_length 8 n
  have ht : (encodeLE 8 n ++ rest).take 8 = encodeLE 8 n := by
    rw [List.take_append_eq_append_take, hl, Nat.sub_self, List.take_zero,
      List.append_nil, List.take_of_length_le (le_of_eq hl)]
  have hd : (encodeLE 8 n ++ rest).drop 8 = rest := by
    rw [List.drop_append_eq_append_drop, hl, Nat.sub_self, List.drop_zero,
      List.drop_eq_nil_of_le (le_of_eq hl), List.nil_append]
  unfold readU64
  rw [if_pos (by rw [List.length_append, hl]; omega), ht, hd,
    decodeLE_encodeLE]
  have h8 : (256 : Nat) ^ 8 = 2 ^ 64 := by norm_num
  rw [h8, Nat.mod_eq_of_lt h]

theorem readBytes_exact (bytes rest : List Nat) :
    readBytes (bytes ++ rest) bytes.length = some (bytes, rest) := by
  unfold readBytes
  rw [if_pos (by rw [List.length_append]; omega), List.take_left, List.drop_left]

/-- The byte stream `SaveBody` produces for a given item sequence. -/
theorem SaveBody_eq_foldr (c : ColumnString) :
    c.SaveBody = c.items.foldr (fun item acc => writeString item ++ acc) [] :=
  rfl

theorem loadLoop_saved (items : List (List Nat)) :
    ∀ (h : ∀ it ∈ items, it.length < 2 ^ 64) (acc : List (List Nat))
      (blocks : List Block) (rest : List Nat),
      ∃ bs, ColumnString.loadLoop
          ((items.foldr (fun item acc => writeString item ++ acc) []) ++ rest)
          items.length acc blocks = some (acc ++ items, bs) := by
  induction items with
  | nil =>
    intro h acc blocks rest
    exact ⟨blocks, by simp [ColumnString.loadLoop]⟩
  | cons it its ih =>
    intro h acc blocks rest
    have hh : it.length < 2 ^ 64 := h it (List.mem_cons_self it its)
    have hstream : (List.foldr (fun item acc => writeString item ++ acc) [] (it :: its)) ++ rest
        = encodeLE 8 it.length
            ++ (it ++ ((List.foldr (fun item acc => writeString item ++ acc) [] its) ++ rest)) := by
      simp [writeString, List.append_assoc]
    rw [hstream, List.length_cons, ColumnString.loadLoop,
      readU64_encode it.length _ hh]
    show ∃ bs,
        (match readBytes (it ++ ((List.foldr (fun item acc => writeString item ++ acc) [] its) ++ rest)) it.length with
        | none => none
        | some (bytes, rest') =>
          ColumnString.loadLoop rest' its.length (acc ++ [bytes])
            (appendToLast
              (if (blocks.getLast?.getD (Block.empty 0)).GetAvailable < it.length then
                blocks ++ [Block.empty (max DEFAULT_BLOCK_SIZE it.length)]
              else blocks) bytes))
        = some (acc ++ it :: its, bs)
    rw [readBytes_exact]
    show ∃ bs, ColumnString.loadLoop
        ((List.foldr (fun item acc => writeString item ++ acc) [] its) ++ rest)
        its.length (acc ++ [it]) _ = some (acc ++ it :: its, bs)
    rw [List.append_cons acc it its]
    exact ih (fun x hx => h x (List.mem_cons_of_mem it hx)) (acc ++ [it]) _ rest

/-! ### Claims -/

/-- C1.  For every sequence of strings appended to a freshly
constructed variable-width column through any mix of the three append
modes (copy, ownership transfer, unsafe borrow), `Size()` equals the
number of appends and `At(i)` returns exactly the `i`-th appended
string, independently of how many arena blocks were allocated along
the way. -/
theorem c1_append_modes_at (ops : List AppendOp) (est : Nat) :
    (ops.foldl applyAppend (ColumnString.new est)).Size = ops.length ∧
    ∀ i : Nat,
      (ops.foldl applyAppend (ColumnString.new est)).At i
        = (ops.map appendedString).get? i := by
  have h : (ops.foldl applyAppend (ColumnString.new est)).items
      = ops.map appendedString := by
    simpa using foldl_applyAppend_items ops (ColumnString.new est)
  constructor
  · unfold ColumnString.Size
    rw [h, List.length_map]
  · intro i
    unfold ColumnString.At
    rw [h]

/-- C3.  Appending a byte sequence no longer than the element width to
a fixed-width column succeeds, and reading the new element's index
returns the sequence right-padded with zero bytes to exactly
`element_size` bytes; in particular with `element_size = 3`, appending
`"x"` makes `At(0)` the three bytes `"x\0\0"`. -/
theorem c3_fixed_append_pads (c : ColumnFixedString) (s : List Nat)
    (hlen : s.length ≤ c.string_size) (hpos : 0 < c.string_size)
    (hinv : c.string_size ∣ c.data.length) :
    ∃ c', c.Append s = .ok c' ∧
      c'.At c.Size = some (s ++ List.replicate (c.string_size - s.length) 0) := by
  refine ⟨{ c with data := c.data ++ s ++ List.replicate (c.string_size - s.length) 0 },
    ?_, ?_⟩
  · unfold ColumnFixedString.Append
    rw [if_neg (by omega)]
  · obtain ⟨k, hk⟩ := hinv
    have hd : (s ++ List.replicate (c.string_size - s.length) 0).length
        = c.string_size := by
      simp
      omega
    have hq : c.data.length / c.string_size * c.string_size = c.data.length := by
      rw [hk, Nat.mul_div_cancel_left k hpos, Nat.mul_comm]
    unfold ColumnFixedString.At ColumnFixedString.Size
    dsimp only
    rw [List.append_assoc, hq]
    have hlen2 : (c.data ++ (s ++ List.replicate (c.string_size - s.length) 0)).length
        = c.data.length + c.string_size := by
      rw [List.length_append, hd]
    rw [hlen2, if_pos (by omega), List.drop_left,
      List.take_of_length_le (le_of_eq hd)]

/-- C4.  Appending a byte sequence strictly longer than the element
width to a fixed-width column fails with a `ValidationError`, raised
before any mutation, so the caller's column (its bytes, hence its
`Size()`) is exactly what it was before the failed append. -/
theorem c4_fixed_append_oversized (c : ColumnFixedString) (s : List Nat)
    (hlen : c.string_size < s.length) :
    c.Append s = .error ("Expected string of length not greater than "
      ++ toString c.string_size ++ " bytes, received "
      ++ toString s.length ++ " bytes.") ∧
    ∀ c', c.Append s ≠ .ok c' := by
  constructor
  · unfold ColumnFixedString.Append
    rw [if_pos hlen]
  · intro c' h
    unfold ColumnFixedString.Append at h
    rw [if_pos hlen] at h
    exact Except.noConfusion h

/-- Witness for C3 at a concrete input: the spec's own scenario,
`element_size = 3` and the single byte `"x"` (0x78). -/
theorem c3_fixed_append_pads_witness :
    ∃ c', (ColumnFixedString.mk 3 []).Append [120] = .ok c' ∧
      c'.At (ColumnFixedString.mk 3 []).Size = some ([120] ++ List.replicate 2 0) := by
  have h := c3_fixed_append_pads (ColumnFixedString.mk 3 []) [120]
    (by decide) (by decide) (by decide)
  simpa using h

/-- C5, counterexample.  The claim says a `rows == 0` load leaves the
column "in the same state as Clear() would: all three containers
(items, blocks, and owned buffers) are emptied".  On a column holding
one ownership-transferred string, `LoadBody(_, 0)` keeps the owned
buffer (`append_data_` is not touched on that path), while `Clear()`
drops it: the resulting states differ. -/
theorem c5_counterexample_load_zero_keeps_owned_buffers :
    (((ColumnString.new 1).AppendMove [97]).LoadBody [] 0).2.append_data ≠ [] ∧
    (((ColumnString.new 1).AppendMove [97]).LoadBody [] 0).2
      ≠ ((ColumnString.new 1).AppendMove [97]).Clear := by
  decide

/-- C5, amended.  Calling `LoadBody` with `rows == 0` on a
variable-width column succeeds without reading or allocating anything
and empties `items_` and `blocks_`; the owned buffers (`append_data_`)
are left untouched, unlike `Clear()`, which also drops them. -/
theorem c5_load_zero_rows_clears_items_blocks (c : ColumnString) (input : List Nat) :
    c.LoadBody input 0 = (true, { c with items := [], blocks := [] }) :=
  rfl

/-- C6.  Both from-list constructors of the variable-width column
recompute `value_size_estimate` as `ceil(total_bytes / count)`,
floored to a minimum of 1 when that ceiling computes to 0. -/
theorem c6_estimate_from_list (data : List (List Nat)) (h : data ≠ []) :
    (ColumnString.fromVectorCopy data).value_size_estimation
        = max (computeTotalSizeAll data ⌈/⌉ data.length) 1 ∧
    (ColumnString.fromVectorMove data).value_size_estimation
        = max (computeTotalSizeAll data ⌈/⌉ data.length) 1 := by
  have hn : data.length ≠ 0 := (List.length_pos.mpr h).ne'
  constructor
  · exact ComputeValueSizeEstimation_of_ne_zero _ _ hn
  · have hitems : (data.foldl ColumnString.AppendMove
        (ColumnString.new DEFAULT_ESTIMATION)).items = data := by
      simpa using foldl_AppendMove_items data (ColumnString.new DEFAULT_ESTIMATION)
    show ComputeValueSizeEstimation
        (computeTotalSizeAll (data.foldl ColumnString.AppendMove
          (ColumnString.new DEFAULT_ESTIMATION)).items)
        (data.foldl ColumnString.AppendMove
          (ColumnString.new DEFAULT_ESTIMATION)).items.length
      = max (computeTotalSizeAll data ⌈/⌉ data.length) 1
    rw [hitems]
    exact ComputeValueSizeEstimation_of_ne_zero _ _ hn

/-- Witness for C6 at a concrete input: the strings "ab" and "c" have
total length 3 over 2 elements, so both constructors estimate
`ceil(3/2) = 2`. -/
theorem c6_estimate_from_list_witness :
    (ColumnString.fromVectorCopy [[97, 98], [99]]).value_size_estimation = 2 ∧
    (ColumnString.fromVectorMove [[97, 98], [99]]).value_size_estimation = 2 := by
  have h := c6_estimate_from_list [[97, 98], [99]] (by decide)
  exact ⟨h.1.trans (by decide), h.2.trans (by decide)⟩

/-- C7.  On a copy append: when there is no current block or the
current block's available space is smaller than the string, exactly
one new block of capacity `max(next_block_size_, str.length)` is
pushed and `next_block_size_` becomes
`max(DEFAULT_BLOCK_SIZE, value_size_estimation_ * 32)`; when the
current block has room, no block is allocated and `next_block_size_`
is unchanged. -/
theorem c7_copy_append_block_allocation (c : ColumnString) (s : List Nat) :
    (c.needNewBlock s = true →
      (c.Append s).blocks.length = c.blocks.length + 1 ∧
      ((c.Append s).blocks.getLast?.map Block.capacity)
          = some (max c.next_block_size s.length) ∧
      (c.Append s).next_block_size
          = max DEFAULT_BLOCK_SIZE (c.value_size_estimation * 32)) ∧
    (c.needNewBlock s = false →
      (c.Append s).blocks.length = c.blocks.length ∧
      (c.Append s).next_block_size = c.next_block_size) := by
  constructor
  · intro h
    unfold ColumnString.Append
    rw [if_pos h]
    refine ⟨?_, ?_, rfl⟩
    · show (appendToLast (c.blocks ++ [Block.empty (max c.next_block_size s.length)]) s).length = _
      rw [appendToLast_concat]
      simp
    · show ((appendToLast (c.blocks ++ [Block.empty (max c.next_block_size s.length)]) s).getLast?.map Block.capacity) = _
      rw [appendToLast_concat, List.getLast?_concat]
      rfl
  · intro h
    unfold ColumnString.Append
    rw [if_neg (by simp [h])]
    exact ⟨appendToLast_length c.blocks s, rfl⟩

/-- Witness for C7 at concrete inputs: appending 5 bytes to a fresh
column (no block yet) allocates one block of capacity
`max(4096, 5) = 4096` and recomputes `next_block_size_` to
`max(4096, 7 * 32) = 4096`; a second small append (the block has room)
allocates nothing and keeps `next_block_size_`. -/
theorem c7_copy_append_block_allocation_witness :
    ((ColumnString.new 7).Append [1, 2, 3, 4, 5]).blocks.length
        = (ColumnString.new 7).blocks.length + 1 ∧
    (((ColumnString.new 7).Append [1, 2, 3, 4, 5]).blocks.getLast?.map Block.capacity)
        = some (max 4096 5) ∧
    (((ColumnString.new 7).Append [1, 2, 3, 4, 5]).Append [9]).blocks.length
        = ((ColumnString.new 7).Append [1, 2, 3, 4, 5]).blocks.length ∧
    (((ColumnString.new 7).Append [1, 2, 3, 4, 5]).Append [9]).next_block_size
        = ((ColumnString.new 7).Append [1, 2, 3, 4, 5]).next_block_size := by
  have h1 := (c7_copy_append_block_allocation (ColumnString.new 7) [1, 2, 3, 4, 5]).1
    (by decide)
  have h2 := (c7_copy_append_block_allocation
    ((ColumnString.new 7).Append [1, 2, 3, 4, 5]) [9]).2 (by decide)
  exact ⟨h1.1, h1.2.1, h2.1, h2.2⟩

/-- C9.  `Swap` on two columns of the same concrete kind exchanges
their observable element sequences (`Size` and every `At(i)`), and
swapping twice restores both columns exactly, for both the
variable-width and the fixed-width kind. -/
theorem c9_swap_exchanges_and_involutive (a b : ColumnString)
    (fa fb : ColumnFixedString) :
    ((ColumnString.Swap a b).1.Size = b.Size ∧
     (ColumnString.Swap a b).2.Size = a.Size ∧
     (∀ i, (ColumnString.Swap a b).1.At i = b.At i) ∧
     (∀ i, (ColumnString.Swap a b).2.At i = a.At i) ∧
     ColumnString.Swap (ColumnString.Swap a b).1 (ColumnString.Swap a b).2 = (a, b)) ∧
    ((ColumnFixedString.Swap fa fb).1.Size = fb.Size ∧
     (ColumnFixedString.Swap fa fb).2.Size = fa.Size ∧
     (∀ i, (ColumnFixedString.Swap fa fb).1.At i = fb.At i) ∧
     (∀ i, (ColumnFixedString.Swap fa fb).2.At i = fa.At i) ∧
     ColumnFixedString.Swap (ColumnFixedString.Swap fa fb).1
        (ColumnFixedString.Swap fa fb).2 = (fa, fb)) :=
  ⟨⟨rfl, rfl, fun _ => rfl, fun _ => rfl, rfl⟩,
   ⟨rfl, rfl, fun _ => rfl, fun _ => rfl, rfl⟩⟩

theorem ColumnString.Slice_items (c : ColumnString) (b l : Nat) :
    (c.Slice b l).items = (c.items.drop b).take l := by
  unfold ColumnString.Slice
  split
  · next hb =>
    rw [List.drop_eq_nil_of_le hb]
    simp [ColumnString.CloneEmpty, ColumnString.new]
  · next hb =>
    rw [foldl_Append_items]
    show ([] : List (List Nat)) ++ (c.items.drop b).take (min l (c.items.length - b))
        = (c.items.drop b).take l
    rw [List.nil_append]
    have hlen : (c.items.drop b).length = c.items.length - b := List.length_drop b c.items
    rcases le_total l (c.items.length - b) with h | h
    · rw [Nat.min_eq_left h]
    · rw [Nat.min_eq_right h, List.take_of_length_le (le_of_eq hlen),
        List.take_of_length_le (by rw [hlen]; exact h)]

theorem ColumnFixedString.Slice_eq (f : ColumnFixedString) (b l : Nat)
    (hss : 0 < f.string_size) (hdvd : f.string_size ∣ f.data.length) :
    f.Slice b l = ⟨f.string_size,
      (f.data.drop (b * f.string_size)).take (l * f.string_size)⟩ := by
  obtain ⟨k, hk⟩ := hdvd
  unfold ColumnFixedString.Slice
  split
  · next hb =>
    have hdl : (f.data.drop (b * f.string_size)).length
        = f.data.length - b * f.string_size := List.length_drop _ _
    rcases le_total (f.data.length - b * f.string_size) (l * f.string_size) with h | h
    · rw [Nat.min_eq_left h, List.take_of_length_le (le_of_eq hdl),
        List.take_of_length_le (by rw [hdl]; exact h)]
    · rw [Nat.min_eq_right h]
  · next hb =>
    have hkb : k ≤ b := by
      have : f.data.length / f.string_size = k := by
        rw [hk, Nat.mul_div_cancel_left k hss]
      unfold ColumnFixedString.Size at hb
      omega
    have hge : f.data.length ≤ b * f.string_size := by
      calc f.data.length = f.string_size * k := hk
        _ ≤ f.string_size * b := Nat.mul_le_mul_left _ hkb
        _ = b * f.string_size := Nat.mul_comm _ _
    rw [List.drop_eq_nil_of_le hge]
    simp

/-- C8.  For both column kinds, `Slice(b, l)` yields a column whose
element sequence is the source's elements at indices `[b, b+l)`
clamped to the source's size: its `Size()` is `min l (Size() - b)`
(in particular 0 whenever `b ≥ Size()`, the empty column) and every
`At(i)` with `i < l` is byte-equal to the source's `At(b + i)`.  Both
`Slice` embeddings are pure functions of the source column, which is
therefore unchanged. -/
theorem c8_slice_elements (c : ColumnString) (f : ColumnFixedString) (b l : Nat)
    (hss : 0 < f.string_size) (hdvd : f.string_size ∣ f.data.length) :
    ((c.Slice b l).Size = min l (c.Size - b) ∧
     ∀ i, i < l → (c.Slice b l).At i = c.At (b + i)) ∧
    ((f.Slice b l).Size = min l (f.Size - b) ∧
     ∀ i, i < l → (f.Slice b l).At i = f.At (b + i)) := by
  obtain ⟨k, hk⟩ := hdvd
  have hkd : f.data.length / f.string_size = k := by
    rw [hk, Nat.mul_div_cancel_left k hss]
  refine ⟨⟨?_, ?_⟩, ?_, ?_⟩
  · unfold ColumnString.Size
    rw [ColumnString.Slice_items, List.length_take, List.length_drop]
  · intro i hi
    unfold ColumnString.At
    rw [ColumnString.Slice_items, List.get?_take hi, List.get?_drop]
  · unfold ColumnFixedString.Size
    rw [ColumnFixedString.Slice_eq f b l hss ⟨k, hk⟩]
    show ((f.data.drop (b * f.string_size)).take (l * f.string_size)).length
        / f.string_size = _
    rw [List.length_take, List.length_drop, hk]
    have hsub : f.string_size * k - b * f.string_size = (k - b) * f.string_size := by
      rw [Nat.mul_comm f.string_size k, Nat.sub_mul]
    rw [hsub, Nat.mul_min_mul_right, Nat.mul_div_cancel _ hss,
      Nat.mul_div_cancel_left k hss]
  · intro i hi
    rw [ColumnFixedString.Slice_eq f b l hss ⟨k, hk⟩]
    unfold ColumnFixedString.At
    dsimp only
    have hilt : i * f.string_size < l * f.string_size :=
      (Nat.mul_lt_mul_right hss).mpr hi
    have hile : i * f.string_size + f.string_size ≤ l * f.string_size := by
      have := (Nat.mul_le_mul_right f.string_size (Nat.succ_le_of_lt hi))
      rwa [Nat.succ_mul] at this
    rw [List.length_take, List.length_drop]
    have hcond : (i * f.string_size
          < min (l * f.string_size) (f.data.length - b * f.string_size))
        ↔ ((b + i) * f.string_size < f.data.length) := by
      rw [Nat.lt_min, Nat.add_mul]
      constructor
      · rintro ⟨-, h2⟩
        omega
      · intro h
        exact ⟨hilt, by omega⟩
    by_cases hc : (b + i) * f.string_size < f.data.length
    · rw [if_pos (hcond.mpr hc), if_pos hc]
      rw [List.drop_take, List.drop_drop, List.take_take,
        Nat.min_eq_left (by omega), Nat.add_mul]
    · rw [if_neg (fun hx => hc (hcond.mp hx)), if_neg hc]

/-- Witness for C8 at concrete inputs: a one-element variable-width
column and a two-element fixed-width column (`element_size = 2`),
sliced with `b = 1`, `l = 5`: the sizes are clamped and the fixed
column's remaining element is returned. -/
theorem c8_slice_elements_witness :
    (((ColumnString.new 1).Append [1]).Slice 1 5).Size
        = min 5 (((ColumnString.new 1).Append [1]).Size - 1) ∧
    ((ColumnFixedString.mk 2 [5, 6, 7, 8]).Slice 1 5).Size
        = min 5 ((ColumnFixedString.mk 2 [5, 6, 7, 8]).Size - 1) ∧
    ((ColumnFixedString.mk 2 [5, 6, 7, 8]).Slice 1 5).At 0
        = (ColumnFixedString.mk 2 [5, 6, 7, 8]).At (1 + 0) := by
  have h := c8_slice_elements ((ColumnString.new 1).Append [1])
    (ColumnFixedString.mk 2 [5, 6, 7, 8]) 1 5 (by decide) (by decide)
  exact ⟨h.1.1, h.2.1, h.2.2 0 (by decide)⟩

/-- C2.  For both column kinds, `SaveBody` followed by `LoadBody` on
an empty column of the same kind (`CloneEmpty`, which keeps the
estimate resp. the element size) over the bytes just written
reproduces the original element sequence exactly — equal `Size()` and
equal `At(i)` for every `i` — for arbitrary row counts including 0.
The element lengths must fit the 64-bit wire length prefix. -/
theorem c2_save_load_roundtrip (c : ColumnString) (f : ColumnFixedString)
    (hlen : ∀ it ∈ c.items, it.length < 2 ^ 64)
    (hss : 0 < f.string_size) (hdvd : f.string_size ∣ f.data.length) :
    ((c.CloneEmpty.LoadBody c.SaveBody c.Size).1 = true ∧
     (c.CloneEmpty.LoadBody c.SaveBody c.Size).2.Size = c.Size ∧
     ∀ i, (c.CloneEmpty.LoadBody c.SaveBody c.Size).2.At i = c.At i) ∧
    (∃ f', f.CloneEmpty.LoadBody f.SaveBody f.Size = some f' ∧
      f'.Size = f.Size ∧ ∀ i, f'.At i = f.At i) := by
  constructor
  · have key : (c.CloneEmpty.LoadBody c.SaveBody c.Size).1 = true ∧
        (c.CloneEmpty.LoadBody c.SaveBody c.Size).2.items = c.items := by
      by_cases h0 : c.items.length = 0
      · have hnil : c.items = [] := List.length_eq_zero.mp h0
        have hsz : c.Size = 0 := h0
        rw [hsz]
        exact ⟨rfl, by rw [hnil]; rfl⟩
      · obtain ⟨bs, hbs⟩ := loadLoop_saved c.items hlen [] [Block.empty DEFAULT_BLOCK_SIZE] []
        rw [List.append_nil, List.nil_append] at hbs
        have hLB : c.CloneEmpty.LoadBody c.SaveBody c.Size
            = (true, { c.CloneEmpty with items := c.items, blocks := bs }) := by
          unfold ColumnString.LoadBody
          rw [show c.Size = c.items.length from rfl, if_neg h0, SaveBody_eq_foldr]
          show (match ColumnString.loadLoop
              (c.items.foldr (fun item acc => writeString item ++ acc) [])
              c.items.length [] [Block.empty DEFAULT_BLOCK_SIZE] with
            | none => (false, c.CloneEmpty)
            | some (new_items, new_blocks) =>
              (true, { c.CloneEmpty with items := new_items, blocks := new_blocks }))
            = (true, { c.CloneEmpty with items := c.items, blocks := bs })
          rw [hbs]
        rw [hLB]
        exact ⟨rfl, rfl⟩
    refine ⟨key.1, ?_, ?_⟩
    · show (c.CloneEmpty.LoadBody c.SaveBody c.Size).2.items.length = c.items.length
      rw [key.2]
    · intro i
      show (c.CloneEmpty.LoadBody c.SaveBody c.Size).2.items.get? i = c.items.get? i
      rw [key.2]
  · have hmul : f.string_size * f.Size = f.data.length :=
      Nat.mul_div_cancel' hdvd
    refine ⟨f, ?_, rfl, fun i => rfl⟩
    unfold ColumnFixedString.LoadBody ColumnFixedString.CloneEmpty
      ColumnFixedString.SaveBody
    dsimp only
    rw [hmul]
    unfold readBytes
    rw [if_pos le_rfl, List.take_length]

/-- Witness for C2 at concrete inputs: a variable-width column holding
"ab" and "" and a fixed-width column with `element_size = 2` holding
one element round-trip through save and load. -/
theorem c2_save_load_roundtrip_witness :
    ((((ColumnString.new 1).Append [97, 98]).AppendMove []).CloneEmpty.LoadBody
        (((ColumnString.new 1).Append [97, 98]).AppendMove []).SaveBody
        (((ColumnString.new 1).Append [97, 98]).AppendMove []).Size).1 = true ∧
    (∀ i, ((((ColumnString.new 1).Append [97, 98]).AppendMove []).CloneEmpty.LoadBody
        (((ColumnString.new 1).Append [97, 98]).AppendMove []).SaveBody
        (((ColumnString.new 1).Append [97, 98]).AppendMove []).Size).2.At i
      = (((ColumnString.new 1).Append [97, 98]).AppendMove []).At i) ∧
    (∃ f', (ColumnFixedString.mk 2 [5, 6]).CloneEmpty.LoadBody
        (ColumnFixedString.mk 2 [5, 6]).SaveBody
        (ColumnFixedString.mk 2 [5, 6]).Size = some f' ∧
      f'.Size = (ColumnFixedString.mk 2 [5, 6]).Size ∧
      ∀ i, f'.At i = (ColumnFixedString.mk 2 [5, 6]).At i) := by
  have h := c2_save_load_roundtrip (((ColumnString.new 1).Append [97, 98]).AppendMove [])
    (ColumnFixedString.mk 2 [5, 6]) (by decide) (by decide) (by decide)
  exact ⟨h.1.1, h.1.2.2, h.2⟩

/-- C10.  For a variable-width column and `rows > 0`, a `LoadBody`
that fails (an incomplete length or byte read) leaves `items_` and
`blocks_` exactly as they were: the loop fills local containers and
swaps them in only after every read has succeeded. -/
theorem c10_failed_load_is_atomic (c : ColumnString) (input : List Nat)
    (rows : Nat) (hrows : rows ≠ 0) (hfail : (c.LoadBody input rows).1 = false) :
    (c.LoadBody input rows).2.items = c.items ∧
    (c.LoadBody input rows).2.blocks = c.blocks := by
  unfold ColumnString.LoadBody at hfail ⊢
  rw [if_neg hrows] at hfail ⊢
  cases h : ColumnString.loadLoop input rows [] [Block.empty DEFAULT_BLOCK_SIZE] with
  | none => exact ⟨rfl, rfl⟩
  | some p =>
    rw [h] at hfail
    cases p
    simp at hfail

/-- Witness for C10 at a concrete input: one row demanded from an
empty stream makes the very first length read fail, and the column
keeps its previous element. -/
theorem c10_failed_load_is_atomic_witness :
    (1 : Nat) ≠ 0 ∧
    (((ColumnString.new 1).Append [7]).LoadBody [] 1).1 = false ∧
    (((ColumnString.new 1).Append [7]).LoadBody [] 1).2.items
        = ((ColumnString.new 1).Append [7]).items ∧
    (((ColumnString.new 1).Append [7]).LoadBody [] 1).2.blocks
        = ((ColumnString.new 1).Append [7]).blocks := by
  have h := c10_failed_load_is_atomic ((ColumnString.new 1).Append [7]) [] 1
    (by decide) (by decide)
  exact ⟨by decide, by decide, h.1, h.2⟩

/-- Witness for C4 at a concrete input: `element_size = 3`, appending
four bytes. -/
theorem c4_fixed_append_oversized_witness :
    (ColumnFixedString.mk 3 []).Append [1, 2, 3, 4]
        = .error ("Expected string of length not greater than 3 bytes, received 4 bytes.") ∧
    ∀ c', (ColumnFixedString.mk 3 []).Append [1, 2, 3, 4] ≠ .ok c' := by
  have h := c4_fixed_append_oversized (ColumnFixedString.mk 3 []) [1, 2, 3, 4] (by decide)
  simpa using h

end Clickhouse
